import Mathlib

/-!
Shallow embedding of the dux worktree / port-allocation core
(src/dux/worktree.py, src/dux/config.py, src/dux/utils.py).

Strings are modelled as `List Char`; byte strings (UTF-8 encoded branch
names fed to the FNV hash) as `List Nat`.  Machine 32-bit arithmetic is
`Nat` with explicit `% 4294967296`.  Fallible operations return `Option`;
a fatal exit (`SystemExit`) is `none`.  External observations (live TCP
sockets, branch existence, directory existence, `git config` output,
file contents) are passed in as explicit parameters, mirroring exactly
how the Python code consults them.
-/

namespace Dux

/- ## Character helpers (CPython `str.strip`, `str.lower`, digits) -/

/-- Whitespace characters recognised by Python `str.strip()` (ASCII range). -/
def isWs (c : Char) : Bool :=
  c == ' ' || c == '\t' || c == '\n' || c == '\r' || c == '\x0b' || c == '\x0c'

/-- Python `str.strip()` from the left. -/
def trimLeft (l : List Char) : List Char := l.dropWhile isWs

/-- Python `str.strip()` from the right. -/
def trimRight (l : List Char) : List Char := (l.reverse.dropWhile isWs).reverse

/-- Python `str.strip()`: drop whitespace on both ends. -/
def pyStrip (l : List Char) : List Char := trimLeft (trimRight l)

/-- ASCII decimal digit test. -/
def isDigitCh (c : Char) : Bool := '0' ≤ c && c ≤ '9'

/-- The decimal digit character for `d < 10`. -/
def digitChar (d : Nat) : Char := Char.ofNat (48 + d)

/-- Numeric value of a digit character. -/
def digitVal (c : Char) : Nat := c.toNat - 48

/-- Decimal rendering of a natural number (CPython `str(int)` for
nonnegative values), with explicit structural fuel. -/
def natCharsAux : Nat → Nat → List Char
  | 0, _ => []
  | fuel + 1, n => if n < 10 then [digitChar n] else natCharsAux fuel (n / 10) ++ [digitChar (n % 10)]

/-- Decimal rendering of a natural number. -/
def natChars (n : Nat) : List Char := natCharsAux (n + 1) n

/-- Accumulating decimal parser over digit characters, accepting a
single grouping underscore between two digits, as CPython `int()`
does (`int("6_5") = 65`, while `"6__5"`, `"6_"` fail). -/
def parseNatCore : List Char → Nat → Option Nat
  | [], acc => some acc
  | c :: cs, acc =>
    if isDigitCh c then parseNatCore cs (acc * 10 + digitVal c)
    else if c == '_' then
      match cs with
      | [] => none
      | d :: rest => if isDigitCh d then parseNatCore rest (acc * 10 + digitVal d) else none
    else none

/-- Parse a digit run with CPython grouping rules: it must begin with a
digit (so `"_65"` fails) and may contain single underscores between
digits. -/
def parseNat? : List Char → Option Nat
  | [] => none
  | c :: cs => if isDigitCh c then parseNatCore (c :: cs) 0 else none

/-- CPython `int(str)` on a pre-stripped ASCII string: optional sign
followed by a digit run with optional single grouping underscores
between digits (non-ASCII digits are not modelled; no input in this
development uses them). -/
def parseInt? : List Char → Option Int
  | [] => none
  | c :: cs =>
    if c == '-' then (parseNat? cs).map (fun n => -(n : Int))
    else if c == '+' then (parseNat? cs).map (fun n => (n : Int))
    else (parseNat? (c :: cs)).map (fun n => (n : Int))

/- ## utils.slugify -/

/-- Post-lowercase alphanumeric test: the class `[a-z0-9]` of the
regular expression in `slugify`. -/
def isLowerAlnum (c : Char) : Bool := ('a' ≤ c && c ≤ 'z') || ('0' ≤ c && c ≤ '9')

/-- Replace every non-`[a-z0-9]` character by a hyphen (the per-character
effect of `re.sub(r"[^a-z0-9]+", "-", s)` before run-collapsing). -/
def dashify (l : List Char) : List Char := l.map (fun c => if isLowerAlnum c then c else '-')

/-- Collapse adjacent hyphens, so that each maximal run of hyphens
becomes a single hyphen (completing the `+` of the substitution). -/
def collapseDashes : List Char → List Char
  | [] => []
  | [c] => [c]
  | a :: b :: rest =>
    if a == '-' && b == '-' then collapseDashes (b :: rest) else a :: collapseDashes (b :: rest)

/-- Regex `re.sub(r"^-+|-+$", "", s)`: strip leading and trailing hyphens. -/
def stripDashes (l : List Char) : List Char :=
  ((l.dropWhile (fun c => c == '-')).reverse.dropWhile (fun c => c == '-')).reverse

/-- The fallback slug token. -/
def workFallback : List Char := ['w', 'o', 'r', 'k']

/-- Function `utils.slugify`: lowercase, collapse non-alphanumeric runs to a
single hyphen, strip edge hyphens, fall back to `"work"` when empty.
(Lowercasing is per-character ASCII, matching CPython on ASCII input.) -/
def slugify (text : List Char) : List Char :=
  let s := text.map Char.toLower
  let s := collapseDashes (dashify s)
  let s := stripDashes s
  if s.isEmpty then workFallback else s

/- ## worktree.stable_hash / allocate_port -/

/-- Function `worktree.stable_hash`: 32-bit FNV-1a over the UTF-8 bytes of the
branch name.  `h ^= ch; h = (h * 0x01000193) & 0xFFFFFFFF` per byte,
starting from the offset basis `0x811C9DC5`. -/
def stable_hash (value : List Nat) : Nat :=
  value.foldl (fun h ch => ((h ^^^ ch) * 0x01000193) % 4294967296) 0x811C9DC5

/-- The loop body of `allocate_port`: `for i in range(0, span*2)` with
`fuel` remaining iterations and `i` the current index.  A candidate is
skipped when recorded in `used` or when the live-socket probe `live`
reports it bound; the first acceptable candidate is returned. -/
def probe_ports (used : List Nat) (live : Nat → Bool) (start : Nat) : Nat → Nat → Option Nat
  | 0, _ => none
  | fuel + 1, i =>
    let p := start + i
    if used.contains p then probe_ports used live start fuel (i + 1)
    else if live p then probe_ports used live start fuel (i + 1)
    else some p

/-- Function `worktree.allocate_port`: deterministic start at
`base_port + stable_hash(branch) % span`, then linear probe of
`2 * span` candidates; `none` models the fatal `SystemExit`
("No free port found in probe window."). -/
def allocate_port (branch : List Nat) (base_port : Nat) (used : List Nat)
    (live : Nat → Bool) (span : Nat) : Option Nat :=
  probe_ports used live (base_port + stable_hash branch % span) (span * 2) 0

/- ## worktree.derive_context_branch -/

/-- Python `str.split()` (no argument): split on whitespace runs,
ignoring leading and trailing whitespace.  `acc` holds the reversed
characters of the word currently being read. -/
def splitWordsAux : List Char → List Char → List (List Char)
  | [], acc => if acc.isEmpty then [] else [acc.reverse]
  | c :: cs, acc =>
    if isWs c then
      if acc.isEmpty then splitWordsAux cs [] else acc.reverse :: splitWordsAux cs []
    else splitWordsAux cs (c :: acc)

/-- Python `context.strip().split()` (the leading `strip` is absorbed by the
argument-free `split`). -/
def pySplitWords (l : List Char) : List (List Char) := splitWordsAux l []

/-- Python `" ".join(words)`. -/
def joinWords (ws : List (List Char)) : List Char := List.intercalate [' '] ws

/-- The slug computed by `derive_context_branch` before probing:
slugify the first `word_limit` words of the context, with the
(unreachable, since `slugify` is never empty) `"work"` fallback kept
from the source. -/
def derive_slug (context : List Char) (word_limit : Nat) : List Char :=
  let words := pySplitWords context
  let snippet := joinWords (words.take word_limit)
  let slug := slugify snippet
  if slug.isEmpty then workFallback else slug

/-- The suffixed candidate `f"\x7bbase_branch\x7d-\x7bsuffix\x7d"`. -/
def worktree_candidate (base : List Char) (suffix : Nat) : List Char :=
  base ++ '-' :: natChars suffix

/-- The `while` loop of `derive_context_branch`: keep the current
candidate while it is taken, advancing the suffix; `fuel` bounds the
number of iterations (the Python loop is unbounded). -/
def probe_branch (taken : List Char → Bool) (base : List Char) :
    List Char → Nat → Nat → Option (List Char)
  | _, _, 0 => none
  | cand, suffix, fuel + 1 =>
    if taken cand then probe_branch taken base (worktree_candidate base suffix) (suffix + 1) fuel
    else some cand

/-- Function `worktree.derive_context_branch`: branch-existence and
directory-existence checks are passed in as predicates `existsB`
(`branch_exists root`) and `existsD`
(`Path(worktree_dir root).exists()`). -/
def derive_context_branch (existsB existsD : List Char → Bool) (context pfx : List Char)
    (word_limit fuel : Nat) : Option (List Char) :=
  let base := pfx ++ '/' :: derive_slug context word_limit
  probe_branch (fun c => existsB c || existsD c) base base 2 fuel

/-- The candidate sequence probed by `derive_context_branch`:
`base`, `base-2`, `base-3`, … -/
def branch_candidate_seq (base : List Char) : Nat → List Char
  | 0 => base
  | j + 1 => worktree_candidate base (j + 2)

/- ## worktree.parse_worktrees / find_existing_worktree_path -/

/-- One entry of the parsed `git worktree list --porcelain` output;
either marker may be missing. -/
structure WtEntry where
  path : Option (List Char)
  branch : Option (List Char)
  deriving Repr, DecidableEq

/-- Python `ln.split(" ", 1)[1]`: everything after the first space (empty when
no space occurs; in `parse_worktrees` the split is guarded by a marker
containing a space). -/
def afterFirstSpace : List Char → List Char
  | [] => []
  | c :: cs => if c == ' ' then cs else afterFirstSpace cs

/-- The marker beginning a path line. -/
def worktreeMarker : List Char := ['w', 'o', 'r', 'k', 't', 'r', 'e', 'e', ' ']

/-- The marker beginning a branch line. -/
def branchMarker : List Char := ['b', 'r', 'a', 'n', 'c', 'h', ' ']

/-- The ref namespace stripped from branch values. -/
def refsHeads : List Char := ['r', 'e', 'f', 's', '/', 'h', 'e', 'a', 'd', 's', '/']

/-- Python `str.replace("refs/heads/", "")`: delete every
(left-to-right, non-overlapping) occurrence. -/
def replaceRefsHeads : List Char → List Char
  | [] => []
  | c :: cs =>
    if refsHeads.isPrefixOf (c :: cs) then replaceRefsHeads (List.drop 10 cs)
    else c :: replaceRefsHeads cs
termination_by l => l.length
decreasing_by
  · simp only [List.length_drop, List.length_cons]
    omega
  · simp only [List.length_cons]
    omega

/-- Truthiness of an optional string (`if not wt_path` in Python:
both a missing key and an empty string are falsy). -/
def truthy : Option (List Char) → Bool
  | none => false
  | some s => !s.isEmpty

/-- The accumulation loop of `worktree.parse_worktrees`; `cur` is the
`current` dict (`if current:` is `truthy`-nonemptiness of either field). -/
def parse_worktrees_aux : List (List Char) → WtEntry → List WtEntry
  | [], cur => if cur.path.isSome || cur.branch.isSome then [cur] else []
  | ln :: rest, cur =>
    if worktreeMarker.isPrefixOf ln then
      let started : WtEntry := ⟨some (pyStrip (afterFirstSpace ln)), none⟩
      if cur.path.isSome || cur.branch.isSome then cur :: parse_worktrees_aux rest started
      else parse_worktrees_aux rest started
    else if branchMarker.isPrefixOf ln then
      parse_worktrees_aux rest ⟨cur.path, some (replaceRefsHeads (pyStrip (afterFirstSpace ln)))⟩
    else parse_worktrees_aux rest cur

/-- Function `worktree.parse_worktrees` on the lines of the porcelain listing. -/
def parse_worktrees (lines : List (List Char)) : List WtEntry :=
  parse_worktrees_aux lines ⟨none, none⟩

/-- The scanning loop of `find_existing_worktree_path`: skip entries
with a missing or empty marker value; return the first surviving entry
whose path exists on disk and whose path equals `desired` or whose
branch equals `branch`. -/
def find_wt_loop (pathExists : List Char → Bool) (branch desired : List Char) :
    List WtEntry → Option (List Char)
  | [] => none
  | wt :: rest =>
    if truthy wt.path && truthy wt.branch then
      match wt.path, wt.branch with
      | some p, some b =>
        if pathExists p && (p == desired || b == branch) then some p
        else find_wt_loop pathExists branch desired rest
      | _, _ => find_wt_loop pathExists branch desired rest
    else find_wt_loop pathExists branch desired rest

/-- Function `worktree.find_existing_worktree_path`: fast path on
`desired_path` existing, otherwise scan the parsed listing. -/
def find_existing_worktree_path (pathExists : List Char → Bool) (branch desired : List Char)
    (lines : List (List Char)) : Option (List Char) :=
  if pathExists desired then some desired
  else find_wt_loop pathExists branch desired (parse_worktrees lines)

/- ## worktree.read_worktree_port / config.ensure_env_port -/

/-- The `PORT=` key prefix. -/
def portKey : List Char := ['P', 'O', 'R', 'T', '=']

/-- Python `line.split("=", 1)[1]`: everything after the first equals sign. -/
def afterFirstEq : List Char → List Char
  | [] => []
  | c :: cs => if c == '=' then cs else afterFirstEq cs

/-- The env-file scanning loop of `read_worktree_port`.  A line whose
stripped form starts with `PORT=` is examined: a value that fails to
parse as an integer raises `ValueError`, which the surrounding
`except` turns into `None` (aborting the scan); a parsed value outside
`[1, 65535]` falls through to the next line. -/
def env_port_scan : List (List Char) → Option Int
  | [] => none
  | l :: rest =>
    if portKey.isPrefixOf (pyStrip l) then
      match parseInt? (pyStrip (afterFirstEq l)) with
      | none => none
      | some p => if 1 ≤ p ∧ p ≤ 65535 then some p else env_port_scan rest
    else env_port_scan rest

/-- Function `worktree.read_worktree_port`.  `gitVal` is the (stripped) output of
`git config --worktree --get issuewt.port` (`none` when the command
failed; `run(...) or None` additionally treats an empty string as
absent); `envLines` holds the lines of the env file (`none` when the file does
not exist). -/
def read_worktree_port (gitVal : Option (List Char)) (envLines : Option (List (List Char))) :
    Option Int :=
  let fallback : Option Int :=
    match envLines with
    | none => none
    | some ls => env_port_scan ls
  match gitVal with
  | none => fallback
  | some v =>
    if v.isEmpty then fallback
    else
      match parseInt? v with
      | none => fallback
      | some p => if 1 ≤ p ∧ p ≤ 65535 then some p else fallback

/-- The `PORT=<port>` line written by `ensure_env_port`. -/
def port_line (port : Nat) : List Char := portKey ++ natChars port

/-- The rewriting loop of `config.ensure_env_port`: every line starting
with `PORT=` (raw, unstripped) is replaced by `PORT=<port>`; the flag
records whether any line matched. -/
def rewrite_env_lines (port : Nat) : List (List Char) → List (List Char) × Bool
  | [] => ([], false)
  | l :: rest =>
    let r := rewrite_env_lines port rest
    if portKey.isPrefixOf l then (port_line port :: r.1, true) else (l :: r.1, r.2)

/-- Function `config.ensure_env_port` at the line level: `content` holds
the lines of the file (`none` when the file does not exist); the result
is the list of lines written back. -/
def ensure_env_port (content : Option (List (List Char))) (port : Nat) : List (List Char) :=
  match content with
  | none => [port_line port]
  | some ls =>
    let r := rewrite_env_lines port ls
    if r.2 then r.1 else r.1 ++ [port_line port]

/-!
## Shared lemmas about the port-probing loop
-/

/-- Membership reading of `List.contains` on `Nat`. -/
theorem contains_false_iff (l : List Nat) (a : Nat) : l.contains a = false ↔ a ∉ l := by
  simp [List.contains]

/-- Anything returned by `probe_ports` is the first acceptable candidate
of its window: it lies in the window, is neither recorded as used nor
live, and every earlier candidate in the window was rejected. -/
theorem probe_ports_some_spec (used : List Nat) (live : Nat → Bool) (start : Nat) :
    ∀ fuel i p, probe_ports used live start fuel i = some p →
      ∃ k, i ≤ k ∧ k < i + fuel ∧ p = start + k ∧
        used.contains p = false ∧ live p = false ∧
        ∀ j, i ≤ j → j < k → (used.contains (start + j) = true ∨ live (start + j) = true) := by
  intro fuel
  induction fuel with
  | zero => intro i p h; simp [probe_ports] at h
  | succ f ih =>
    intro i p h
    cases hc : used.contains (start + i) with
    | true =>
      simp only [probe_ports, hc, if_true] at h
      obtain ⟨k, hk1, hk2, hk3, hk4, hk5, hk6⟩ := ih (i + 1) p h
      refine ⟨k, by omega, by omega, hk3, hk4, hk5, fun j hj1 hj2 => ?_⟩
      rcases Nat.eq_or_lt_of_le hj1 with he | hl
      · exact Or.inl (he ▸ hc)
      · exact hk6 j hl hj2
    | false =>
      cases hl : live (start + i) with
      | true =>
        simp only [probe_ports, hc, hl, Bool.false_eq_true, if_false, if_true] at h
        obtain ⟨k, hk1, hk2, hk3, hk4, hk5, hk6⟩ := ih (i + 1) p h
        refine ⟨k, by omega, by omega, hk3, hk4, hk5, fun j hj1 hj2 => ?_⟩
        rcases Nat.eq_or_lt_of_le hj1 with he | hgt
        · exact Or.inr (he ▸ hl)
        · exact hk6 j hgt hj2
      | false =>
        simp only [probe_ports, hc, hl, Bool.false_eq_true, if_false, Option.some.injEq] at h
        exact ⟨i, Nat.le_refl i, by omega, h.symm, h ▸ hc, h ▸ hl, fun j hj1 hj2 => by omega⟩

/-- The loop `probe_ports` fails exactly when every candidate of its window is
recorded as used or live. -/
theorem probe_ports_none_iff (used : List Nat) (live : Nat → Bool) (start : Nat) :
    ∀ fuel i, probe_ports used live start fuel i = none ↔
      ∀ k, i ≤ k → k < i + fuel → (used.contains (start + k) = true ∨ live (start + k) = true) := by
  intro fuel
  induction fuel with
  | zero => intro i; simp [probe_ports]; omega
  | succ f ih =>
    intro i
    constructor
    · intro h k hk1 hk2
      cases hc : used.contains (start + i) with
      | true =>
        simp only [probe_ports, hc, if_true] at h
        rcases Nat.eq_or_lt_of_le hk1 with he | hgt
        · exact Or.inl (he ▸ hc)
        · exact (ih (i + 1)).1 h k hgt (by omega)
      | false =>
        cases hl : live (start + i) with
        | true =>
          simp only [probe_ports, hc, hl, Bool.false_eq_true, if_false, if_true] at h
          rcases Nat.eq_or_lt_of_le hk1 with he | hgt
          · exact Or.inr (he ▸ hl)
          · exact (ih (i + 1)).1 h k hgt (by omega)
        | false =>
          simp only [probe_ports, hc, hl, Bool.false_eq_true, if_false] at h
          exact Option.noConfusion h
    · intro h
      cases hc : used.contains (start + i) with
      | true =>
        simp only [probe_ports, hc, if_true]
        exact (ih (i + 1)).2 fun k hk1 hk2 => h k (by omega) (by omega)
      | false =>
        cases hl : live (start + i) with
        | true =>
          simp only [probe_ports, hc, hl, Bool.false_eq_true, if_false, if_true]
          exact (ih (i + 1)).2 fun k hk1 hk2 => h k (by omega) (by omega)
        | false =>
          rcases h i (Nat.le_refl i) (by omega) with hbad | hbad
          · rw [hc] at hbad; cases hbad
          · rw [hl] at hbad; cases hbad

/-- A successful allocation never returns a port recorded as used. -/
theorem allocate_port_not_mem (branch : List Nat) (base : Nat) (used : List Nat)
    (live : Nat → Bool) (span p : Nat)
    (h : allocate_port branch base used live span = some p) : p ∉ used := by
  obtain ⟨k, _, _, _, hc, _, _⟩ :=
    probe_ports_some_spec used live (base + stable_hash branch % span) (span * 2) 0 p h
  exact (contains_false_iff used p).1 hc

/-!
## Claims about `allocate_port`
-/

/-- C1: whenever `allocate_port` returns a port `p`, `p` is not a member
of `used`; consequently, for any second allocation whose `used` set
contains `p` (feed-forward), the second returned port differs from `p`. -/
theorem allocate_port_respects_used (branch : List Nat) (base : Nat) (used : List Nat)
    (live : Nat → Bool) (span p : Nat)
    (h : allocate_port branch base used live span = some p) :
    p ∉ used ∧
      ∀ branch2 base2 (used2 : List Nat) live2 span2 p2, p ∈ used2 →
        allocate_port branch2 base2 used2 live2 span2 = some p2 → p2 ≠ p := by
  refine ⟨allocate_port_not_mem branch base used live span p h, ?_⟩
  intro branch2 base2 used2 live2 span2 p2 hmem h2 heq
  exact allocate_port_not_mem branch2 base2 used2 live2 span2 p2 h2 (heq ▸ hmem)

/-- C1 witness: branch `"A"` (UTF-8 `[65]`) at base 3000, span 500 with
`used = [3412]` (its deterministic start) returns 3413, which avoids
the used set; a feed-forward second allocation differs from it. -/
theorem allocate_port_respects_used_witness :
    3413 ∉ [3412] ∧
      ∀ branch2 base2 (used2 : List Nat) live2 span2 p2, 3413 ∈ used2 →
        allocate_port branch2 base2 used2 live2 span2 = some p2 → p2 ≠ 3413 :=
  allocate_port_respects_used [65] 3000 [3412] (fun _ => false) 500 3413 (by rfl)

/-- C2: with empty `used` and the live probe rejecting nothing,
`allocate_port` returns exactly `base + stable_hash branch % span` (the
FNV-1a hash of the branch bytes reduced mod the span); two such calls
agree. -/
theorem allocate_port_deterministic (branch : List Nat) (base span : Nat)
    (live live2 : Nat → Bool) (hspan : 0 < span)
    (hlive : ∀ q, live q = false) (hlive2 : ∀ q, live2 q = false) :
    allocate_port branch base [] live span = some (base + stable_hash branch % span) ∧
      allocate_port branch base [] live2 span = allocate_port branch base [] live span := by
  have key : ∀ l : Nat → Bool, (∀ q, l q = false) →
      allocate_port branch base [] l span = some (base + stable_hash branch % span) := by
    intro l hl
    obtain ⟨m, hm⟩ : ∃ m, span * 2 = m + 1 := ⟨span * 2 - 1, by omega⟩
    unfold allocate_port
    rw [hm]
    simp [probe_ports, hl]
  exact ⟨key live hlive, (key live2 hlive2).trans (key live hlive).symm⟩

/-- C2 witness: branch `"A"` at base 3000, span 500 lands on
`3000 + stable_hash [65] % 500 = 3412`, and a second identical call
returns the same port. -/
theorem allocate_port_deterministic_witness :
    allocate_port [65] 3000 [] (fun _ => false) 500 =
        some (3000 + stable_hash [65] % 500) ∧
      allocate_port [65] 3000 [] (fun _ => false) 500 =
        allocate_port [65] 3000 [] (fun _ => false) 500 :=
  allocate_port_deterministic [65] 3000 500 (fun _ => false) (fun _ => false)
    (by decide) (fun _ => rfl) (fun _ => rfl)

/-- C3: the function `allocate_port` probes exactly `2 * span` consecutive candidates
from the starting port; it fails (the fatal exhaustion exit, modelled
`none`) precisely when every candidate is used or live, and any returned
port is the first acceptable candidate of the window. -/
theorem allocate_port_probe_window (branch : List Nat) (base : Nat) (used : List Nat)
    (live : Nat → Bool) (span : Nat) (hspan : 0 < span) :
    (allocate_port branch base used live span = none ↔
      ∀ i, i < span * 2 →
        (used.contains (base + stable_hash branch % span + i) = true ∨
          live (base + stable_hash branch % span + i) = true)) ∧
      ∀ p, allocate_port branch base used live span = some p →
        ∃ i, i < span * 2 ∧ p = base + stable_hash branch % span + i ∧
          p ∉ used ∧ live p = false ∧
          ∀ j, j < i →
            (used.contains (base + stable_hash branch % span + j) = true ∨
              live (base + stable_hash branch % span + j) = true) := by
  constructor
  · have h := probe_ports_none_iff used live (base + stable_hash branch % span) (span * 2) 0
    unfold allocate_port
    simpa using h
  · intro p h
    obtain ⟨k, hk0, hk1, hk2, hk3, hk4, hk5⟩ :=
      probe_ports_some_spec used live (base + stable_hash branch % span) (span * 2) 0 p h
    exact ⟨k, by omega, hk2, (contains_false_iff used p).1 hk3, hk4,
      fun j hj => hk5 j (by omega) hj⟩

/-- C3 witness: the `span = 1` instance from the claim.  Branch `""` hashes to
an even offset mod 1 (trivially 0), so the window is two candidate
ports 3000 and 3001; with both in `used` the allocation exhausts. -/
theorem allocate_port_probe_window_witness :
    allocate_port [] 3000 [3000, 3001] (fun _ => false) 1 = none :=
  (allocate_port_probe_window [] 3000 [3000, 3001] (fun _ => false) 1 (by decide)).1.2
    (by decide)

/-- C4 counterexample: the claim bounds every successful allocation by
`base + 2 * span - 1`, but with branch `""` (hash odd), base 3000,
span 2 and `used = [3001, 3002, 3003]` the code returns
`3004 > 3000 + 2 * 2 - 1`. -/
theorem allocate_port_range_counterexample :
    allocate_port [] 3000 [3001, 3002, 3003] (fun _ => false) 2 = some 3004 ∧
      3000 + 2 * 2 - 1 < 3004 := by
  exact ⟨by rfl, by decide⟩

/-- C4 (amended): every successful allocation lies within
`[base, base + 3 * span - 2]` (start offset up to `span - 1` plus probe
offset up to `2 * span - 1`); in the end-to-end scenario (base 3000,
span 500, sequential feed-forward allocations for branches `"A"`,
`"B"`, `"C"`) the ports are 3412, 3269 and 3150 — pairwise distinct and
each within `[3000, 3999]`. -/
theorem allocate_port_range_amended :
    (∀ branch base (used : List Nat) live span p,
      allocate_port branch base used live span = some p →
        base ≤ p ∧ p ≤ base + 3 * span - 2) ∧
      (allocate_port [65] 3000 [] (fun _ => false) 500 = some 3412 ∧
        allocate_port [66] 3000 [3412] (fun _ => false) 500 = some 3269 ∧
        allocate_port [67] 3000 [3412, 3269] (fun _ => false) 500 = some 3150 ∧
        (3412 ≠ 3269 ∧ 3412 ≠ 3150 ∧ 3269 ≠ 3150) ∧
        (3000 ≤ 3412 ∧ 3412 ≤ 3999) ∧ (3000 ≤ 3269 ∧ 3269 ≤ 3999) ∧
        (3000 ≤ 3150 ∧ 3150 ≤ 3999)) := by
  constructor
  · intro branch base used live span p h
    obtain ⟨k, hk0, hk1, hk2, _, _, _⟩ :=
      probe_ports_some_spec used live (base + stable_hash branch % span) (span * 2) 0 p h
    have hspan : 0 < span := by
      by_contra hs
      have : span = 0 := by omega
      subst this
      simp [allocate_port, probe_ports] at h
    have hmod : stable_hash branch % span < span := Nat.mod_lt _ hspan
    omega
  · refine ⟨by rfl, by rfl, by rfl, ?_, ?_, ?_, ?_⟩ <;> decide

/-- C4 witness: the amended bound applied to the first allocation of the
scenario. -/
theorem allocate_port_range_amended_witness :
    3000 ≤ 3412 ∧ 3412 ≤ 3000 + 3 * 500 - 2 :=
  allocate_port_range_amended.1 [65] 3000 [] (fun _ => false) 500 3412 (by rfl)

/-!
## Claims about `slugify` and `derive_context_branch`
-/

/-- C7: the function `slugify` lowercases, collapses every maximal non-alphanumeric
run to one hyphen, strips edge hyphens, and never returns the empty
string — empty normalizations fall back to `"work"`; in particular
`"Fix Login Bug!!"` slugifies to `"fix-login-bug"` and `""` / `"   "`
to the fallback. -/
theorem slugify_normalization :
    (∀ text : List Char, slugify text ≠ []) ∧
      slugify ("Fix Login Bug!!".data) = ("fix-login-bug".data) ∧
      slugify [] = workFallback ∧
      slugify ("   ".data) = workFallback := by
  refine ⟨?_, by decide, by decide, by decide⟩
  intro text
  unfold slugify
  cases hs : (stripDashes (collapseDashes (dashify (text.map Char.toLower)))).isEmpty with
  | true => simp [hs, workFallback]
  | false =>
    simp only [hs, Bool.false_eq_true, if_false]
    intro hnil
    rw [hnil] at hs
    exact absurd hs (by decide)

/-- C7 witness: the fallback instance is nonempty. -/
theorem slugify_normalization_witness : slugify ([] : List Char) ≠ [] :=
  slugify_normalization.1 []

/-- What `probe_branch` returns is the first untaken element of the
candidate sequence, relative to its entry state. -/
theorem probe_branch_spec (taken : List Char → Bool) (base : List Char) :
    ∀ fuel j c, probe_branch taken base (branch_candidate_seq base j) (j + 2) fuel = some c →
      ∃ m, j ≤ m ∧ c = branch_candidate_seq base m ∧ taken c = false ∧
        ∀ k, j ≤ k → k < m → taken (branch_candidate_seq base k) = true := by
  intro fuel
  induction fuel with
  | zero => intro j c h; simp [probe_branch] at h
  | succ f ih =>
    intro j c h
    cases ht : taken (branch_candidate_seq base j) with
    | false =>
      simp only [probe_branch, ht, Bool.false_eq_true, if_false, Option.some.injEq] at h
      exact ⟨j, Nat.le_refl j, h.symm, h ▸ ht, fun k hk1 hk2 => by omega⟩
    | true =>
      simp only [probe_branch, ht, if_true] at h
      have hstep : worktree_candidate base (j + 2) = branch_candidate_seq base (j + 1) := rfl
      rw [hstep] at h
      obtain ⟨m, hm1, hm2, hm3, hm4⟩ := ih (j + 1) c h
      refine ⟨m, by omega, hm2, hm3, fun k hk1 hk2 => ?_⟩
      rcases Nat.eq_or_lt_of_le hk1 with he | hgt
      · exact he ▸ ht
      · exact hm4 k hgt hk2

/-- C6: whatever `derive_context_branch` returns passes the dual
non-existence check (no such branch, no such worktree directory), and
is the first element of the candidate sequence
`pfx/slug`, `pfx/slug-2`, `pfx/slug-3`, … that does. -/
theorem derive_context_branch_first_free (existsB existsD : List Char → Bool)
    (context pfx : List Char) (wl fuel : Nat) (c : List Char)
    (h : derive_context_branch existsB existsD context pfx wl fuel = some c) :
    existsB c = false ∧ existsD c = false ∧
      ∃ m, c = branch_candidate_seq (pfx ++ '/' :: derive_slug context wl) m ∧
        ∀ k, k < m →
          (existsB (branch_candidate_seq (pfx ++ '/' :: derive_slug context wl) k) = true ∨
            existsD (branch_candidate_seq (pfx ++ '/' :: derive_slug context wl) k) = true) := by
  unfold derive_context_branch at h
  have h0 : probe_branch (fun c => existsB c || existsD c)
      (pfx ++ '/' :: derive_slug context wl)
      (branch_candidate_seq (pfx ++ '/' :: derive_slug context wl) 0) (0 + 2) fuel = some c := h
  obtain ⟨m, _, hm2, hm3, hm4⟩ :=
    probe_branch_spec (fun c => existsB c || existsD c)
      (pfx ++ '/' :: derive_slug context wl) fuel 0 c h0
  simp only [Bool.or_eq_false_iff] at hm3
  refine ⟨hm3.1, hm3.2, m, hm2, fun k hk => ?_⟩
  have := hm4 k (Nat.zero_le k) hk
  simpa [Bool.or_eq_true] using this

/-- C6 witness: with branches `work/foo` and `work/foo-2` existing (and
no colliding directories), context `"foo"` derives `work/foo-3`, which
passes both non-existence checks. -/
theorem derive_context_branch_first_free_witness :
    derive_context_branch
        (fun s => s == "work/foo".data || s == "work/foo-2".data) (fun _ => false)
        ("foo".data) ("work".data) 5 10 = some ("work/foo-3".data) ∧
      (fun s : List Char => s == "work/foo".data || s == "work/foo-2".data)
          ("work/foo-3".data) = false := by
  refine ⟨by decide, ?_⟩
  exact (derive_context_branch_first_free
    (fun s => s == "work/foo".data || s == "work/foo-2".data) (fun _ => false)
    ("foo".data) ("work".data) 5 10 ("work/foo-3".data) (by decide)).1

/-!
## Claims about `read_worktree_port`
-/

/-- Any port produced by the env-file scan is within `[1, 65535]`. -/
theorem env_port_scan_range : ∀ ls p, env_port_scan ls = some p → 1 ≤ p ∧ p ≤ 65535 := by
  intro ls
  induction ls with
  | nil => intro p h; simp [env_port_scan] at h
  | cons l rest ih =>
    intro p h
    cases hpre : portKey.isPrefixOf (pyStrip l) with
    | false =>
      simp only [env_port_scan, hpre, Bool.false_eq_true, if_false] at h
      exact ih p h
    | true =>
      simp only [env_port_scan, hpre, if_true] at h
      cases hparse : parseInt? (pyStrip (afterFirstEq l)) with
      | none => rw [hparse] at h; exact Option.noConfusion h
      | some q =>
        simp only [hparse] at h
        by_cases hq : 1 ≤ q ∧ q ≤ 65535
        · rw [if_pos hq] at h
          cases h
          exact hq
        · rw [if_neg hq] at h
          exact ih p h

/-- C5 counterexample: with no git-config value and an env file whose
first `PORT=` line does not parse as an integer, recovery returns
`none` even though a later `PORT=` line parses in range — the claimed
"treated as absent, falls through" behavior fails for non-integer
values. -/
theorem read_worktree_port_nonint_counterexample :
    read_worktree_port none (some ["PORT=abc".data, "PORT=9".data]) = none ∧
      env_port_scan ["PORT=9".data] = some 9 := by
  exact ⟨by decide, by decide⟩

/-- C5 (amended): recovery order and validation of
`read_worktree_port`.  (1) Every returned port is in `[1, 65535]` and
the function is total (never raises).  (2) A git-config value parsing
in range is authoritative: it is returned whatever the env file holds.
(3) With no git-config value, recovery is exactly the env scan.
(4) An unusable git-config value — empty, non-integer, or parsing out
of range — falls through: recovery behaves exactly as with no
git-config value at all.  (5)-(8) The env scan: lines whose stripped
form does not start with `PORT=` are skipped, an out-of-range parsed
value is skipped with the scan continuing, but a non-integer value
aborts the env scan to `none`; a line parsing in range returns its
value. -/
theorem read_worktree_port_spec :
    (∀ gv el p, read_worktree_port gv el = some p → 1 ≤ p ∧ p ≤ 65535) ∧
      (∀ v el p, parseInt? v = some p → 1 ≤ p → p ≤ 65535 →
        read_worktree_port (some v) el = some p) ∧
      (∀ ls, read_worktree_port none (some ls) = env_port_scan ls) ∧
      (∀ v el, (v = [] ∨ parseInt? v = none ∨
          (∃ p, parseInt? v = some p ∧ ¬(1 ≤ p ∧ p ≤ 65535))) →
        read_worktree_port (some v) el = read_worktree_port none el) ∧
      (∀ l rest, portKey.isPrefixOf (pyStrip l) = false →
        env_port_scan (l :: rest) = env_port_scan rest) ∧
      (∀ l rest p, portKey.isPrefixOf (pyStrip l) = true →
        parseInt? (pyStrip (afterFirstEq l)) = some p → ¬(1 ≤ p ∧ p ≤ 65535) →
        env_port_scan (l :: rest) = env_port_scan rest) ∧
      (∀ l rest, portKey.isPrefixOf (pyStrip l) = true →
        parseInt? (pyStrip (afterFirstEq l)) = none →
        env_port_scan (l :: rest) = none) ∧
      (∀ l rest p, portKey.isPrefixOf (pyStrip l) = true →
        parseInt? (pyStrip (afterFirstEq l)) = some p → 1 ≤ p → p ≤ 65535 →
        env_port_scan (l :: rest) = some p) := by
  refine ⟨?_, ?_, ?_, ?_, ?_, ?_, ?_, ?_⟩
  · intro gv el p h
    have envcase : ∀ el' : Option (List (List Char)),
        (match el' with
          | none => (none : Option Int)
          | some ls => env_port_scan ls) = some p → 1 ≤ p ∧ p ≤ 65535 := by
      intro el' h'
      match el' with
      | none => exact Option.noConfusion h'
      | some ls => exact env_port_scan_range ls p h'
    match gv with
    | none => exact envcase el h
    | some v =>
      by_cases hv : v.isEmpty = true
      · simp only [read_worktree_port, hv, if_true] at h
        exact envcase el h
      · simp only [read_worktree_port, hv, Bool.false_eq_true, if_false] at h
        cases hparse : parseInt? v with
        | none => rw [hparse] at h; exact envcase el h
        | some q =>
          simp only [hparse] at h
          by_cases hq : 1 ≤ q ∧ q ≤ 65535
          · rw [if_pos hq] at h; cases h; exact hq
          · rw [if_neg hq] at h; exact envcase el h
  · intro v el p hparse h1 h2
    have hv : v.isEmpty = false := by
      cases v with
      | nil => exact Option.noConfusion hparse
      | cons c cs => rfl
    simp [read_worktree_port, hv, hparse, h1, h2]
  · intro ls; rfl
  · intro v el hv
    rcases hv with hv | hv | ⟨p, hp, hrange⟩
    · subst hv
      cases el <;> rfl
    · by_cases hve : v.isEmpty = true
      · simp [read_worktree_port, hve]
      · simp [read_worktree_port, hve, hv]
    · by_cases hve : v.isEmpty = true
      · simp [read_worktree_port, hve]
      · simp [read_worktree_port, hve, hp, hrange]
  · intro l rest hpre; simp [env_port_scan, hpre]
  · intro l rest p hpre hparse hq; simp [env_port_scan, hpre, hparse, hq]
  · intro l rest hpre hparse; simp [env_port_scan, hpre, hparse]
  · intro l rest p hpre hparse h1 h2; simp [env_port_scan, hpre, hparse, h1, h2]

/-- C5 witness: a git-config value `"70"` is returned as port 70 even
though the env file records a different port, and the result is in
range. -/
theorem read_worktree_port_spec_witness :
    read_worktree_port (some ("70".data)) (some [("PORT=9".data)]) = some 70 ∧
      1 ≤ (70 : Int) ∧ (70 : Int) ≤ 65535 :=
  ⟨read_worktree_port_spec.2.1 ("70".data) (some [("PORT=9".data)]) 70
      (by decide) (by decide) (by decide),
    read_worktree_port_spec.1 (some ("70".data)) (some [("PORT=9".data)]) 70
      (read_worktree_port_spec.2.1 ("70".data) (some [("PORT=9".data)]) 70
        (by decide) (by decide) (by decide))⟩

/-!
## Claims about `find_existing_worktree_path`
-/

/-- Anything returned by the scanning loop is the path of some listed
entry with both fields present, an existing path, and a path or branch
match. -/
theorem find_wt_loop_some (pe : List Char → Bool) (br de : List Char) :
    ∀ es p, find_wt_loop pe br de es = some p →
      pe p = true ∧ ∃ wt ∈ es, wt.path = some p ∧
        ∃ b, wt.branch = some b ∧ (p = de ∨ b = br) := by
  intro es
  induction es with
  | nil => intro p h; simp [find_wt_loop] at h
  | cons wt rest ih =>
    intro p h
    cases ht : truthy wt.path && truthy wt.branch with
    | false =>
      simp only [find_wt_loop, ht, Bool.false_eq_true, if_false] at h
      obtain ⟨h1, wt', hmem, h2⟩ := ih p h
      exact ⟨h1, wt', List.mem_cons_of_mem wt hmem, h2⟩
    | true =>
      simp only [find_wt_loop, ht, if_true] at h
      match hp : wt.path, hb : wt.branch with
      | some p0, some b0 =>
        rw [hp, hb] at h
        simp only at h
        cases hcond : pe p0 && (p0 == de || b0 == br) with
        | false =>
          rw [hcond] at h
          simp only [Bool.false_eq_true, if_false] at h
          obtain ⟨h1, wt', hmem, h2⟩ := ih p h
          exact ⟨h1, wt', List.mem_cons_of_mem wt hmem, h2⟩
        | true =>
          rw [hcond] at h
          simp only [if_true, Option.some.injEq] at h
          subst h
          simp only [Bool.and_eq_true, Bool.or_eq_true, beq_iff_eq] at hcond
          exact ⟨hcond.1, wt, List.mem_cons_self wt rest, hp, b0, hb, hcond.2⟩
      | some p0, none => rw [hp, hb] at ht; simp [truthy] at ht
      | none, _ => rw [hp] at ht; simp [truthy] at ht

/-- If no listed entry matches (path or branch equality with an
existing path), the scanning loop returns `none`. -/
theorem find_wt_loop_none (pe : List Char → Bool) (br de : List Char) :
    ∀ es, (∀ wt ∈ es, ∀ p b, wt.path = some p → wt.branch = some b →
        ¬(pe p = true ∧ (p = de ∨ b = br))) →
      find_wt_loop pe br de es = none := by
  intro es
  induction es with
  | nil => intro _; rfl
  | cons wt rest ih =>
    intro hno
    have hrest := ih fun wt' hmem => hno wt' (List.mem_cons_of_mem wt hmem)
    cases ht : truthy wt.path && truthy wt.branch with
    | false => simp only [find_wt_loop, ht, Bool.false_eq_true, if_false]; exact hrest
    | true =>
      simp only [find_wt_loop, ht, if_true]
      match hp : wt.path, hb : wt.branch with
      | some p0, some b0 =>
        simp only
        cases hcond : pe p0 && (p0 == de || b0 == br) with
        | false => simp only [Bool.false_eq_true, if_false]; exact hrest
        | true =>
          simp only [Bool.and_eq_true, Bool.or_eq_true, beq_iff_eq] at hcond
          exact absurd hcond (hno wt (List.mem_cons_self wt rest) p0 b0 hp hb)
      | some p0, none => rw [hp, hb] at ht; simp [truthy] at ht
      | none, _ => rw [hp] at ht; simp [truthy] at ht

/-- C8: the function `find_existing_worktree_path` (1) returns `desired` whenever it
exists on disk; (2) any returned path exists on disk and is `desired`
or the recorded path of a listed entry matching by path or by branch;
(3) returns `none` when `desired` does not exist and no listed entry
matches; (4) malformed entries (missing or empty marker values) are
skipped without affecting the scan, for every listing. -/
theorem find_existing_worktree_path_spec :
    (∀ (pe : List Char → Bool) br de lines, pe de = true →
      find_existing_worktree_path pe br de lines = some de) ∧
      (∀ (pe : List Char → Bool) br de lines p,
        find_existing_worktree_path pe br de lines = some p →
        pe p = true ∧ (p = de ∨ ∃ wt ∈ parse_worktrees lines, wt.path = some p ∧
          ∃ b, wt.branch = some b ∧ (p = de ∨ b = br))) ∧
      (∀ (pe : List Char → Bool) br de lines, pe de = false →
        (∀ wt ∈ parse_worktrees lines, ∀ p b, wt.path = some p → wt.branch = some b →
          ¬(pe p = true ∧ (p = de ∨ b = br))) →
        find_existing_worktree_path pe br de lines = none) ∧
      (∀ (pe : List Char → Bool) br de wt rest,
        (truthy wt.path && truthy wt.branch) = false →
        find_wt_loop pe br de (wt :: rest) = find_wt_loop pe br de rest) := by
  refine ⟨?_, ?_, ?_, ?_⟩
  · intro pe br de lines hde
    simp [find_existing_worktree_path, hde]
  · intro pe br de lines p h
    cases hde : pe de with
    | true =>
      simp only [find_existing_worktree_path, hde, if_true, Option.some.injEq] at h
      exact ⟨h ▸ hde, Or.inl h.symm⟩
    | false =>
      simp only [find_existing_worktree_path, hde, Bool.false_eq_true, if_false] at h
      obtain ⟨h1, wt, hmem, h2⟩ := find_wt_loop_some pe br de (parse_worktrees lines) p h
      exact ⟨h1, Or.inr ⟨wt, hmem, h2⟩⟩
  · intro pe br de lines hde hno
    simp only [find_existing_worktree_path, hde, Bool.false_eq_true, if_false]
    exact find_wt_loop_none pe br de (parse_worktrees lines) hno
  · intro pe br de wt rest ht
    simp only [find_wt_loop, ht, Bool.false_eq_true, if_false]

/-- C8 witness: the fast path at a concrete listing — the desired path
exists, so it is returned directly. -/
theorem find_existing_worktree_path_spec_witness :
    find_existing_worktree_path (fun s => s == "/r/.wt/b".data) ("b".data) ("/r/.wt/b".data)
        ["worktree /r/.wt/b".data, "branch refs/heads/b".data] = some ("/r/.wt/b".data) :=
  find_existing_worktree_path_spec.1 (fun s => s == "/r/.wt/b".data) ("b".data)
    ("/r/.wt/b".data) ["worktree /r/.wt/b".data, "branch refs/heads/b".data] (by decide)

/-!
## Decimal printing round-trips through the integer parser
-/

/-- Digit characters are digits with the expected value. -/
theorem digitChar_spec : ∀ d, d < 10 → isDigitCh (digitChar d) = true ∧ digitVal (digitChar d) = d := by
  decide

/-- Every character of a decimal rendering is a digit. -/
theorem natCharsAux_all_digits : ∀ fuel n c, c ∈ natCharsAux fuel n → isDigitCh c = true := by
  intro fuel
  induction fuel with
  | zero => intro n c h; simp [natCharsAux] at h
  | succ f ih =>
    intro n c h
    by_cases hn : n < 10
    · simp only [natCharsAux, hn, if_true, List.mem_singleton] at h
      exact h ▸ (digitChar_spec n hn).1
    · simp only [natCharsAux, hn, if_false, List.mem_append, List.mem_singleton] at h
      rcases h with h | h
      · exact ih (n / 10) c h
      · exact h ▸ (digitChar_spec (n % 10) (Nat.mod_lt n (by omega))).1

/-- Decimal renderings are never empty. -/
theorem natCharsAux_ne_nil : ∀ f n, natCharsAux (f + 1) n ≠ [] := by
  intro f n
  by_cases hn : n < 10
  · simp [natCharsAux, hn]
  · simp [natCharsAux, hn]

/-- On an all-digit head list (no underscore lookahead pending at the
boundary) the accumulating parser distributes over list append. -/
theorem parseNatCore_append_digits : ∀ xs ys acc, (∀ c ∈ xs, isDigitCh c = true) →
    parseNatCore (xs ++ ys) acc =
      match parseNatCore xs acc with
      | none => none
      | some b => parseNatCore ys b := by
  intro xs
  induction xs with
  | nil => intro ys acc _; rfl
  | cons c cs ih =>
    intro ys acc hall
    have hc : isDigitCh c = true := hall c (List.mem_cons_self c cs)
    have hstep : ∀ zs a, parseNatCore (c :: zs) a = parseNatCore zs (a * 10 + digitVal c) := by
      intro zs a
      rw [parseNatCore.eq_def]
      simp [hc]
    rw [List.cons_append, hstep, hstep]
    exact ih ys (acc * 10 + digitVal c) fun x hx => hall x (List.mem_cons_of_mem c hx)

/-- Parsing a decimal rendering under an accumulator yields the
accumulator shifted by the length of the rendering plus the value. -/
theorem natCharsAux_parse : ∀ fuel n, n < fuel → ∀ acc,
    parseNatCore (natCharsAux fuel n) acc =
      some (acc * 10 ^ (natCharsAux fuel n).length + n) := by
  intro fuel
  induction fuel with
  | zero => intro n h; omega
  | succ f ih =>
    intro n hn acc
    by_cases h10 : n < 10
    · obtain ⟨hd, hv⟩ := digitChar_spec n h10
      simp [natCharsAux, h10, parseNatCore, hd, hv]
    · have hdiv : n / 10 < f := by
        have h1 : n / 10 < n := Nat.div_lt_self (by omega) (by omega)
        omega
      obtain ⟨hd, hv⟩ := digitChar_spec (n % 10) (Nat.mod_lt n (by omega))
      simp only [natCharsAux, h10, if_false]
      rw [parseNatCore_append_digits (natCharsAux f (n / 10)) [digitChar (n % 10)] acc
          (fun c hc => natCharsAux_all_digits f (n / 10) c hc),
        ih (n / 10) hdiv acc]
      simp only [parseNatCore, hd, if_true, hv, List.length_append, List.length_cons,
        List.length_nil]
      congr 1
      have := Nat.div_add_mod n 10
      ring_nf
      omega

/-- Parsing with `parseNat?` inverts `natChars`. -/
theorem parseNat_natChars (n : Nat) : parseNat? (natChars n) = some n := by
  have hparse := natCharsAux_parse (n + 1) n (by omega) 0
  cases hc : natChars n with
  | nil => exact absurd hc (natCharsAux_ne_nil n n)
  | cons c cs =>
    have hd : isDigitCh c = true :=
      natCharsAux_all_digits (n + 1) n c
        (by rw [show natCharsAux (n + 1) n = natChars n from rfl, hc]
            exact List.mem_cons_self c cs)
    rw [show natCharsAux (n + 1) n = natChars n from rfl, hc] at hparse
    rw [show parseNat? (c :: cs) = parseNatCore (c :: cs) 0 from by
      simp [parseNat?, hd]]
    rw [hparse]
    simp

/-- A digit character is neither a sign character nor whitespace. -/
theorem digit_not_special : ∀ c, isDigitCh c = true →
    (c == '-') = false ∧ (c == '+') = false ∧ isWs c = false := by
  intro c h
  refine ⟨?_, ?_, ?_⟩
  · cases he : c == '-' with
    | true => rw [show c = '-' from by simpa using he] at h; exact absurd h (by decide)
    | false => rfl
  · cases he : c == '+' with
    | true => rw [show c = '+' from by simpa using he] at h; exact absurd h (by decide)
    | false => rfl
  · cases hw : isWs c with
    | true =>
      have hcases : c = ' ' ∨ c = '\t' ∨ c = '\n' ∨ c = '\r' ∨ c = '\x0b' ∨ c = '\x0c' := by
        simpa [isWs, or_assoc] using hw
      rcases hcases with h0 | h0 | h0 | h0 | h0 | h0 <;> (subst h0; exact absurd h (by decide))
    | false => rfl

/-- Parsing with `parseInt?` inverts `natChars`. -/
theorem parseInt_natChars (n : Nat) : parseInt? (natChars n) = some (n : Int) := by
  cases hc : natChars n with
  | nil => exact absurd hc (natCharsAux_ne_nil n n)
  | cons c cs =>
    have hd : isDigitCh c = true :=
      natCharsAux_all_digits (n + 1) n c (by rw [show natCharsAux (n + 1) n = natChars n from rfl, hc]; exact List.mem_cons_self c cs)
    obtain ⟨h1, h2, _⟩ := digit_not_special c hd
    have hp : parseNat? (c :: cs) = some n := hc ▸ parseNat_natChars n
    simp [parseInt?, h1, h2, hp]

/-- Dropping no-whitespace leaves a list untouched. -/
theorem dropWhile_isWs_eq_self : ∀ l : List Char, (∀ c ∈ l, isWs c = false) →
    l.dropWhile isWs = l := by
  intro l h
  cases l with
  | nil => rfl
  | cons c cs =>
    rw [List.dropWhile_cons, if_neg]
    simp [h c (List.mem_cons_self c cs)]

/-- Stripping with `pyStrip` is the identity on whitespace-free strings. -/
theorem pyStrip_eq_self (l : List Char) (h : ∀ c ∈ l, isWs c = false) : pyStrip l = l := by
  unfold pyStrip trimLeft trimRight
  rw [dropWhile_isWs_eq_self l.reverse (fun c hc => h c (List.mem_reverse.1 hc)),
    List.reverse_reverse, dropWhile_isWs_eq_self l h]

/-- No character of a `PORT=<port>` line is whitespace. -/
theorem port_line_no_ws : ∀ port, ∀ c ∈ port_line port, isWs c = false := by
  intro port c hc
  rcases List.mem_append.1 hc with h | h
  · fin_cases h <;> decide
  · exact (digit_not_special c (natCharsAux_all_digits (port + 1) port c h)).2.2

/-- A list is a `isPrefixOf`-prefix of itself followed by anything. -/
theorem isPrefixOf_append_self : ∀ l t : List Char, l.isPrefixOf (l ++ t) = true := by
  intro l t
  induction l with
  | nil =>
    rw [List.nil_append]
    cases t with
    | nil => rfl
    | cons a as => rfl
  | cons c cs ih => simp [List.isPrefixOf, ih]

/-- The value part of a `PORT=<port>` line is exactly the rendered
port. -/
theorem afterFirstEq_port_line (port : Nat) : afterFirstEq (port_line port) = natChars port := by
  simp [port_line, portKey, afterFirstEq]

/-!
## Claims about `ensure_env_port` and the port round-trip
-/

/-- The key `PORT=` is a prefix of the line it writes. -/
theorem portKey_isPrefixOf_port_line (port : Nat) :
    portKey.isPrefixOf (port_line port) = true :=
  isPrefixOf_append_self portKey (natChars port)

/-- Stripping leaves the written `PORT=` line untouched. -/
theorem pyStrip_port_line (port : Nat) : pyStrip (port_line port) = port_line port :=
  pyStrip_eq_self (port_line port) (port_line_no_ws port)

/-- Stripping leaves a decimal rendering untouched. -/
theorem pyStrip_natChars (port : Nat) : pyStrip (natChars port) = natChars port :=
  pyStrip_eq_self (natChars port)
    (fun c hc => (digit_not_special c (natCharsAux_all_digits (port + 1) port c hc)).2.2)

/-- The rewriting pass of `ensure_env_port` preserves non-`PORT=` lines
verbatim and in order, turns every `PORT=` line into the written line,
keeps the `PORT=` line count, and flags whether any line matched. -/
theorem rewrite_env_lines_spec (port : Nat) : ∀ ls : List (List Char),
    ((rewrite_env_lines port ls).1.filter (fun l => !(portKey.isPrefixOf l)) =
      ls.filter (fun l => !(portKey.isPrefixOf l))) ∧
      (∀ l ∈ (rewrite_env_lines port ls).1, portKey.isPrefixOf l = true → l = port_line port) ∧
      ((rewrite_env_lines port ls).1.countP (fun l => portKey.isPrefixOf l) =
        ls.countP (fun l => portKey.isPrefixOf l)) ∧
      ((rewrite_env_lines port ls).2 = ls.any (fun l => portKey.isPrefixOf l)) := by
  intro ls
  induction ls with
  | nil => exact ⟨rfl, by intro l h; simp [rewrite_env_lines] at h, rfl, rfl⟩
  | cons l rest ih =>
    obtain ⟨ih1, ih2, ih3, ih4⟩ := ih
    cases hm : portKey.isPrefixOf l with
    | true =>
      simp only [rewrite_env_lines, hm, if_true]
      refine ⟨?_, ?_, ?_, ?_⟩
      · rw [List.filter_cons_of_neg (by simp [portKey_isPrefixOf_port_line]),
          List.filter_cons_of_neg (by simp [hm])]
        exact ih1
      · intro l' hl' hpre
        rcases List.mem_cons.1 hl' with he | hmem
        · exact he
        · exact ih2 l' hmem hpre
      · rw [List.countP_cons_of_pos _ _ (by simpa using portKey_isPrefixOf_port_line port),
          List.countP_cons_of_pos _ _ (by simpa using hm)]
        omega
      · simp [List.any_cons, hm]
    | false =>
      simp only [rewrite_env_lines, hm, Bool.false_eq_true, if_false]
      refine ⟨?_, ?_, ?_, ?_⟩
      · rw [List.filter_cons_of_pos (by simp [hm]), List.filter_cons_of_pos (by simp [hm])]
        exact congrArg (l :: ·) ih1
      · intro l' hl' hpre
        rcases List.mem_cons.1 hl' with he | hmem
        · rw [he] at hpre; rw [hpre] at hm; exact absurd hm (by simp)
        · exact ih2 l' hmem hpre
      · rw [List.countP_cons_of_neg _ _ (by simp [hm]),
          List.countP_cons_of_neg _ _ (by simp [hm])]
        exact ih3
      · simp [List.any_cons, hm, ih4]

/-- C9 counterexample: an env file with two `PORT=` lines is rewritten
to two `PORT=5` lines — more than one `PORT=` line survives, refuting
the claimed "at most one" invariant over arbitrary initial content. -/
theorem ensure_env_port_two_lines_counterexample :
    ensure_env_port (some ["PORT=1".data, "PORT=2".data]) 5 =
        ["PORT=5".data, "PORT=5".data] ∧
      2 ≤ (ensure_env_port (some ["PORT=1".data, "PORT=2".data]) 5).countP
        (fun l => portKey.isPrefixOf l) := by
  exact ⟨by decide, by decide⟩

/-- C9 (amended): the function `ensure_env_port` rewrites every existing `PORT=`
line to `PORT=<port>` (appending one when none exists), preserving all
other lines verbatim and in order; the resulting `PORT=` line count is
`max 1` of the initial count, so at most one `PORT=` line survives
whenever the initial content held at most one. -/
theorem ensure_env_port_amended (content : Option (List (List Char))) (port : Nat) :
    ((ensure_env_port content port).filter (fun l => !(portKey.isPrefixOf l)) =
      (content.getD []).filter (fun l => !(portKey.isPrefixOf l))) ∧
      (∀ l ∈ ensure_env_port content port, portKey.isPrefixOf l = true → l = port_line port) ∧
      ((ensure_env_port content port).countP (fun l => portKey.isPrefixOf l) =
        max 1 ((content.getD []).countP (fun l => portKey.isPrefixOf l))) ∧
      ((content.getD []).countP (fun l => portKey.isPrefixOf l) ≤ 1 →
        (ensure_env_port content port).countP (fun l => portKey.isPrefixOf l) = 1) := by
  have hk : (fun l => portKey.isPrefixOf l) (port_line port) = true := by
    simpa using portKey_isPrefixOf_port_line port
  match content with
  | none =>
    refine ⟨?_, ?_, ?_, ?_⟩
    · rw [show ensure_env_port none port = [port_line port] from rfl,
        List.filter_cons_of_neg (by simp [portKey_isPrefixOf_port_line])]
      rfl
    · intro l hl _
      rcases List.mem_cons.1 hl with he | hmem
      · exact he
      · exact absurd hmem (List.not_mem_nil l)
    · rw [show ensure_env_port none port = [port_line port] from rfl,
        List.countP_cons_of_pos _ _ hk]
      rfl
    · intro _
      rw [show ensure_env_port none port = [port_line port] from rfl,
        List.countP_cons_of_pos _ _ hk]
      rfl
  | some ls =>
    obtain ⟨h1, h2, h3, h4⟩ := rewrite_env_lines_spec port ls
    cases hf : (rewrite_env_lines port ls).2 with
    | true =>
      have hens : ensure_env_port (some ls) port = (rewrite_env_lines port ls).1 := by
        simp [ensure_env_port, hf]
      have hpos : 0 < ls.countP (fun l => portKey.isPrefixOf l) := by
        rw [hf] at h4
        obtain ⟨x, hx, hpx⟩ := List.any_eq_true.1 h4.symm
        exact List.countP_pos.2 ⟨x, hx, hpx⟩
      refine ⟨hens ▸ h1, hens ▸ h2, ?_, ?_⟩
      · rw [hens, h3]
        simp only [Option.getD_some]
        omega
      · intro hle
        rw [hens, h3]
        simp only [Option.getD_some] at hle
        omega
    | false =>
      have hens : ensure_env_port (some ls) port =
          (rewrite_env_lines port ls).1 ++ [port_line port] := by
        simp [ensure_env_port, hf]
      have hzero : ls.countP (fun l => portKey.isPrefixOf l) = 0 := by
        rw [hf] at h4
        refine List.countP_eq_zero.2 fun x hx => ?_
        intro hpx
        have : ls.any (fun l => portKey.isPrefixOf l) = true := List.any_eq_true.2 ⟨x, hx, hpx⟩
        rw [this] at h4
        exact Bool.noConfusion h4
      refine ⟨?_, ?_, ?_, ?_⟩
      · rw [hens, List.filter_append, h1,
          List.filter_cons_of_neg (by simp [portKey_isPrefixOf_port_line])]
        simp
      · intro l hl hpre
        rw [hens] at hl
        rcases List.mem_append.1 hl with hmem | hmem
        · exact h2 l hmem hpre
        · rcases List.mem_cons.1 hmem with he | hmem'
          · exact he
          · exact absurd hmem' (List.not_mem_nil l)
      · rw [hens, List.countP_append, h3, hzero, List.countP_cons_of_pos _ _ hk]
        simp only [Option.getD_some, hzero, List.countP_nil]
        decide
      · intro _
        rw [hens, List.countP_append, h3, hzero, List.countP_cons_of_pos _ _ hk]
        simp only [List.countP_nil]

/-- C9 witness: a file without a `PORT=` line gets exactly one after
the rewrite. -/
theorem ensure_env_port_amended_witness :
    (ensure_env_port (some [("A=1".data)]) 5).countP (fun l => portKey.isPrefixOf l) = 1 :=
  (ensure_env_port_amended (some [("A=1".data)]) 5).2.2.2 (by decide)

/-- The scan accepts the freshly written `PORT=` line at once. -/
theorem env_scan_cons_port_line (port : Nat) (rest : List (List Char))
    (h1 : 1 ≤ port) (h2 : port ≤ 65535) :
    env_port_scan (port_line port :: rest) = some (port : Int) := by
  have hrange : 1 ≤ (port : Int) ∧ (port : Int) ≤ 65535 := by
    constructor <;> [exact_mod_cast h1; exact_mod_cast h2]
  simp [env_port_scan, pyStrip_port_line, portKey_isPrefixOf_port_line,
    afterFirstEq_port_line, pyStrip_natChars, parseInt_natChars, hrange]

/-- After the rewrite, scanning recovers the written port — provided
every line whose stripped form starts with `PORT=` also starts with it
raw (so the scanner sees no line the rewriter missed). -/
theorem env_scan_rewrite_core (port : Nat) (h1 : 1 ≤ port) (h2 : port ≤ 65535) :
    ∀ ls : List (List Char),
      (∀ l ∈ ls, portKey.isPrefixOf (pyStrip l) = true → portKey.isPrefixOf l = true) →
      ((rewrite_env_lines port ls).2 = true →
        env_port_scan (rewrite_env_lines port ls).1 = some (port : Int)) ∧
        ((rewrite_env_lines port ls).2 = false →
          env_port_scan ((rewrite_env_lines port ls).1 ++ [port_line port]) =
            some (port : Int)) := by
  intro ls
  induction ls with
  | nil =>
    intro _
    refine ⟨fun hf => Bool.noConfusion hf, fun _ => ?_⟩
    exact env_scan_cons_port_line port [] h1 h2
  | cons l rest ih =>
    intro hcond
    obtain ⟨ihT, ihF⟩ := ih fun l' hmem => hcond l' (List.mem_cons_of_mem l hmem)
    cases hm : portKey.isPrefixOf l with
    | true =>
      simp only [rewrite_env_lines, hm, if_true]
      exact ⟨fun _ => env_scan_cons_port_line port _ h1 h2,
        fun hf => Bool.noConfusion hf⟩
    | false =>
      have hstrip : portKey.isPrefixOf (pyStrip l) = false := by
        cases hs : portKey.isPrefixOf (pyStrip l) with
        | true => rw [hcond l (List.mem_cons_self l rest) hs] at hm; exact Bool.noConfusion hm
        | false => rfl
      simp only [rewrite_env_lines, hm, Bool.false_eq_true, if_false]
      constructor
      · intro hf
        rw [show env_port_scan (l :: (rewrite_env_lines port rest).1) =
            env_port_scan (rewrite_env_lines port rest).1 from by
          simp [env_port_scan, hstrip]]
        exact ihT hf
      · intro hf
        rw [List.cons_append,
          show env_port_scan (l :: ((rewrite_env_lines port rest).1 ++ [port_line port])) =
            env_port_scan ((rewrite_env_lines port rest).1 ++ [port_line port]) from by
          simp [env_port_scan, hstrip]]
        exact ihF hf

/-- C10 counterexample: a line with leading whitespace before `PORT=`
is invisible to the rewriter (raw prefix test) but visible to the
scanner (stripped prefix test): after `ensure_env_port` with port 5 the
recovery returns the stale port 7, not 5. -/
theorem port_env_roundtrip_counterexample :
    read_worktree_port none (some (ensure_env_port (some [("  PORT=7".data)]) 5)) = some 7 ∧
      (7 : Int) ≠ 5 := by
  exact ⟨by decide, by decide⟩

/-- C10 (amended): for every port in `[1, 65535]` and every initial
content in which any line whose stripped form starts with `PORT=` also
starts with `PORT=` raw, writing with `ensure_env_port` and recovering
through the env-file step of `read_worktree_port` (no git-config value)
returns exactly the written port. -/
theorem port_env_roundtrip_amended (content : Option (List (List Char))) (port : Nat)
    (h1 : 1 ≤ port) (h2 : port ≤ 65535)
    (hlines : ∀ l ∈ content.getD [],
      portKey.isPrefixOf (pyStrip l) = true → portKey.isPrefixOf l = true) :
    read_worktree_port none (some (ensure_env_port content port)) = some (port : Int) := by
  have hread : ∀ ls, read_worktree_port none (some ls) = env_port_scan ls := fun ls => rfl
  match content with
  | none =>
    rw [hread, show ensure_env_port none port = [port_line port] from rfl]
    exact env_scan_cons_port_line port [] h1 h2
  | some ls =>
    obtain ⟨coreT, coreF⟩ := env_scan_rewrite_core port h1 h2 ls
      (by simpa using hlines)
    cases hf : (rewrite_env_lines port ls).2 with
    | true =>
      rw [hread, show ensure_env_port (some ls) port = (rewrite_env_lines port ls).1 from by
        simp [ensure_env_port, hf]]
      exact coreT hf
    | false =>
      rw [hread, show ensure_env_port (some ls) port =
          (rewrite_env_lines port ls).1 ++ [port_line port] from by
        simp [ensure_env_port, hf]]
      exact coreF hf

/-- C10 witness: round-trip at a concrete file with one unrelated line. -/
theorem port_env_roundtrip_amended_witness :
    read_worktree_port none (some (ensure_env_port (some [("A=1".data)]) 5)) = some 5 :=
  port_env_roundtrip_amended (some [("A=1".data)]) 5 (by decide) (by decide) (by decide)

end Dux
